import Mathlib

/-!
# hw5: a benchmark of shared-counter synchronisation strategies

A shallow embedding of `src/main.c`.  The harness `main` is sequential code that
talks to the outside world (argument parsing, `malloc`, the clock, `pthread_create`,
`pthread_join`, two output streams).  It is modelled as a total function from the
argument vector and a `World` (the answers the outside world gives) to a `Run`:
the list of observable events in program order, the exit code and the final value
of the global `incrementer_func`.

Machine integers are naturals or integers with explicit reduction modulo `2^32`
(`unsigned int`) and `2^64` (`unsigned long` on the LP64 targets of the program).
-/

namespace Hw5

/-! ## Names of the functions pulled in by the `#include` lines -/

/-- The six thread bodies of `incrementers/*.c`, by name. -/
inductive Incrementer
  | increment_with_no_lock
  | increment_with_mutex
  | increment_with_spinlock
  | increment_with_readwritelock
  | increment_with_signalwait
  | increment_with_semaphore
  deriving DecidableEq, Repr

/-- The five initialisation hooks called by `main`, by name. -/
inductive InitHook
  | init_mutex
  | init_spinlock
  | init_readwritelock
  | init_signalwait
  | init_semaphore
  deriving DecidableEq, Repr

/-- Addresses passed as the thread argument; `main` only ever passes `&numLoops`. -/
inductive Ref
  | numLoops
  deriving DecidableEq, Repr

/-- Observable actions of `main`, in the vocabulary of the source. -/
inductive Event
  | stderr (text : String)
  | stdout (text : String)
  | assign_incrementer_func (f : Incrementer)
  | init (h : InitHook)
  | getInt_fail (name : String)
  | malloc (count : Nat)
  | clock_gettime
  | pthread_create (slot : Nat) (f : Incrementer) (arg : Ref)
  | pthread_join (handle : Option Nat)
  | errExitEN (status : Int) (what : String)
  | read_glob
  deriving DecidableEq, Repr

/-- A clock reading, `struct timespec`. -/
structure Timespec where
  tv_sec : Int
  tv_nsec : Int
  deriving DecidableEq, Repr

/-- The answers of the environment to the calls `main` makes. -/
structure World where
  /-- the integer a text denotes, when it is numeric (the `strtol` part of `getInt`) -/
  parse : String → Option Int
  /-- whether `malloc` of that many `pthread_t` returns a non-null pointer -/
  malloc_ok : Nat → Bool
  /-- the reading stored by the k-th call of `clock_gettime` (k = 0, 1, 2) -/
  clock : Nat → Timespec
  /-- the status returned by the `pthread_create` of loop index i -/
  create_status : Nat → Int
  /-- the handle that `pthread_create` of loop index i stores through its first argument -/
  new_handle : Nat → Nat
  /-- the status returned by the `pthread_join` of loop index i -/
  join_status : Nat → Int
  /-- the content of `glob` when `main` reads it for the first `printf` -/
  glob : Nat

/-- What a run of `main` leaves behind. -/
structure Run where
  trace : List Event
  exit_code : Nat
  incrementer_func : Option Incrementer
  deriving DecidableEq, Repr

/-! ## Machine arithmetic -/

/-- Value of an `unsigned int` object holding `v`. -/
def toUInt (v : Nat) : Nat := v % 2 ^ 32

/-- What `printf("%d")` shows for the 32-bit pattern `v`: its two's complement reading. -/
def asInt32 (v : Nat) : Int :=
  if toUInt v < 2 ^ 31 then (toUInt v : Int) else (toUInt v : Int) - 2 ^ 32

/-- Conversion of a `long` to `unsigned long` (64 bits). -/
def toULong (x : Int) : Nat := (x % 2 ^ 64).toNat

/-- The expression `spec.tv_nsec/1000000ul + spec.tv_sec*1000ul` of lines 89, 101 and 113,
evaluated in `unsigned long`. -/
def ms_of (spec : Timespec) : Nat :=
  (toULong spec.tv_nsec / 1000000 + (toULong spec.tv_sec * 1000) % 2 ^ 64) % 2 ^ 64

/-- Subtraction `a - b` of two `unsigned long` values. -/
def sub_ulong (a b : Nat) : Nat := (a % 2 ^ 64 + 2 ^ 64 - b % 2 ^ 64) % 2 ^ 64

/-- The conversion `%7lu`: decimal, right-justified in a field of width 7. -/
def fmt_7lu (v : Nat) : String :=
  String.mk (List.replicate (7 - (toString v).length) ' ') ++ toString v

/-! ## The harness -/

/-- Text written by `printUsage` (lines 30-33), both lines on standard error. -/
def printUsage : List Event :=
  [ .stderr "Usage: ./hw5 <num-loops> <num-threads> <concurrency-method>\n",
    .stderr "Valid Concurrency methods are:\n\tnone\n\tmutex\n\tspinlock\n\treadwritelock\n\tsignalwait\n\tsemaphore\n" ]

/-- Modelled from the spec: `getInt` with flag `GN_GT_0` comes from `include/dependencies.h`,
which is not part of the sources at hand.  Following section 6 ("both numeric args must
parse as positive integers; non-positive or non-numeric input is a fatal configuration
error, exit code 1") it yields the denoted integer when the text is numeric and the value
is positive, and `none` when the call ends the process instead of returning.  The result
is a C `int`, so a value above `INT_MAX` is not returned either. -/
def getInt (w : World) (arg : String) : Option Int :=
  match w.parse arg with
  | some n => if 0 < n ∧ n ≤ 2147483647 then some n else none
  | none => none

/-- The chain of `streq` tests of lines 57-78: the thread body stored in
`incrementer_func` and the hook called right after, or `none` for the final `else`. -/
def selectMethod (concurrencyMethod : String) : Option (Incrementer × Option InitHook) :=
  if concurrencyMethod = "none" then
    some (.increment_with_no_lock, none)
  else if concurrencyMethod = "mutex" then
    some (.increment_with_mutex, some .init_mutex)
  else if concurrencyMethod = "spinlock" then
    some (.increment_with_spinlock, some .init_spinlock)
  else if concurrencyMethod = "readwritelock" then
    some (.increment_with_readwritelock, some .init_readwritelock)
  else if concurrencyMethod = "signalwait" then
    some (.increment_with_signalwait, some .init_signalwait)
  else if concurrencyMethod = "semaphore" then
    some (.increment_with_semaphore, some .init_semaphore)
  else
    none

/-- Events of one taken branch of lines 57-73: the assignment, then the hook if any. -/
def selectEvents (f : Incrementer) (h : Option InitHook) : List Event :=
  match h with
  | some hook => [.assign_incrementer_func f, .init hook]
  | none => [.assign_incrementer_func f]

/-- Outcome of a loop over the threads: the events, the handle array, and the status
that made `errExitEN` end the process, if any. -/
structure LoopResult where
  events : List Event
  threads : Nat → Option Nat
  failed : Option Int

/-- The loop of lines 93-97 from index `i` with `remaining` iterations to go.
`threads` is the array allocated at line 81; a slot is `none` until a create fills it. -/
def createLoop (w : World) (f : Incrementer) :
    (remaining : Nat) → (i : Nat) → (threads : Nat → Option Nat) → LoopResult
  | 0, _, threads => ⟨[], threads, none⟩
  | remaining + 1, i, threads =>
    let threadStatus := w.create_status i
    if threadStatus ≠ 0 then
      ⟨[.pthread_create i f .numLoops, .errExitEN threadStatus "pthread_create"],
        threads, some threadStatus⟩
    else
      let rest := createLoop w f remaining (i + 1)
        (Function.update threads i (some (w.new_handle i)))
      ⟨.pthread_create i f .numLoops :: rest.events, rest.threads, rest.failed⟩

/-- The loop of lines 105-109 from index `i` with `remaining` iterations to go. -/
def joinLoop (w : World) (threads : Nat → Option Nat) :
    (remaining : Nat) → (i : Nat) → List Event × Option Int
  | 0, _ => ([], none)
  | remaining + 1, i =>
    let threadStatus := w.join_status i
    if threadStatus ≠ 0 then
      ([.pthread_join (threads i), .errExitEN threadStatus "pthread_join"], some threadStatus)
    else
      let rest := joinLoop w threads remaining (i + 1)
      (.pthread_join (threads i) :: rest.1, rest.2)

/-- The three `printf` calls of lines 115-117, preceded by the read of `glob`. -/
def report (w : World) : List Event :=
  let startTime_ms := ms_of (w.clock 0)
  let allCreatedTime_ms := ms_of (w.clock 1)
  let allFinishedTime_ms := ms_of (w.clock 2)
  [ .read_glob,
    .stdout ("glob = " ++ toString (asInt32 w.glob) ++ "\n"),
    .stdout ("Time to create threads:\t" ++ fmt_7lu (sub_ulong allCreatedTime_ms startTime_ms)
      ++ " ms\n"),
    .stdout ("Time to run:\t\t" ++ fmt_7lu (sub_ulong allFinishedTime_ms startTime_ms)
      ++ " ms\n") ]

/-- Lines 81-118: everything after the strategy has been selected.  `pre` is the trace
so far.  Modelled from the spec: `errExitEN` (from `include/dependencies.h`, absent) does
not return and ends the process with a non-zero status, here 1. -/
def runThreads (w : World) (f : Incrementer) (numThreads : Nat) (pre : List Event) : Run :=
  if w.malloc_ok numThreads = false then
    ⟨pre ++ [.malloc numThreads,
        .stderr ("Error: could not allocate memory for " ++ toString numThreads ++ " threads.")],
      1, some f⟩
  else
    let created := createLoop w f numThreads 0 (fun _ => none)
    match created.failed with
    | some _ => ⟨pre ++ [.malloc numThreads, .clock_gettime] ++ created.events, 1, some f⟩
    | none =>
      let joined := joinLoop w created.threads numThreads 0
      match joined.2 with
      | some _ =>
        ⟨pre ++ [.malloc numThreads, .clock_gettime] ++ created.events ++ [.clock_gettime]
          ++ joined.1, 1, some f⟩
      | none =>
        ⟨pre ++ [.malloc numThreads, .clock_gettime] ++ created.events ++ [.clock_gettime]
          ++ joined.1 ++ [.clock_gettime] ++ report w, 0, some f⟩

/-- Lines 51-118, reached with `argc == 4`. -/
def mainBody (w : World) (a1 a2 concurrencyMethod : String) : Run :=
  match getInt w a1 with
  | none => ⟨[.getInt_fail "num-loops"], 1, none⟩
  | some _ =>
    match getInt w a2 with
    | none => ⟨[.getInt_fail "num-threads"], 1, none⟩
    | some numThreads =>
      match selectMethod concurrencyMethod with
      | none =>
        ⟨[.stderr ("Error: invalid or unknown concurrency mechanism given ("
            ++ concurrencyMethod ++ ")")], 1, none⟩
      | some (f, hook) => runThreads w f numThreads.toNat (selectEvents f hook)

/-- The function `main` (lines 35-119); `argv` includes the program name, `argc` is its
length. -/
def main (w : World) (argv : List String) : Run :=
  match argv with
  | [_, a] =>
    if a = "-h" then ⟨printUsage, 0, none⟩
    else ⟨.stderr "Error: incorrect # of args" :: printUsage, 1, none⟩
  | [_, a1, a2, concurrencyMethod] => mainBody w a1 a2 concurrencyMethod
  | _ => ⟨.stderr "Error: incorrect # of args" :: printUsage, 1, none⟩

/-! ## Observations on a trace -/

/-- Text sent to standard output. -/
def stdoutOf : List Event → List String
  | [] => []
  | .stdout s :: es => s :: stdoutOf es
  | _ :: es => stdoutOf es

/-- Text sent to standard error. -/
def stderrOf : List Event → List String
  | [] => []
  | .stderr s :: es => s :: stderrOf es
  | _ :: es => stderrOf es

/-- The initialisation hooks called, in order. -/
def initsOf : List Event → List InitHook
  | [] => []
  | .init h :: es => h :: initsOf es
  | _ :: es => initsOf es

/-- The thread bodies stored into `incrementer_func`, in order. -/
def assignsOf : List Event → List Incrementer
  | [] => []
  | .assign_incrementer_func f :: es => f :: assignsOf es
  | _ :: es => assignsOf es

/-- The `pthread_create` calls issued, in order. -/
def createsOf : List Event → List (Nat × Incrementer × Ref)
  | [] => []
  | .pthread_create i f a :: es => (i, f, a) :: createsOf es
  | _ :: es => createsOf es

/-- The handles passed to `pthread_join`, in order. -/
def joinsOf : List Event → List (Option Nat)
  | [] => []
  | .pthread_join h :: es => h :: joinsOf es
  | _ :: es => joinsOf es

/-- Value of a list of decimal digits read after the prefix value `acc`. -/
def digitsValue : List Char → Nat → Option Nat
  | [], acc => some acc
  | c :: cs, acc =>
    if c.isDigit then digitsValue cs (10 * acc + (c.toNat - 48)) else none

/-- A plain decimal reader: an optional minus sign, then one or more digits. -/
def parseDecimal (s : String) : Option Int :=
  match s.data with
  | [] => none
  | ['-'] => none
  | '-' :: cs => (digitsValue cs 0).map (fun n => - (n : Int))
  | cs => (digitsValue cs 0).map (fun n => (n : Int))

/-- A sample environment: decimal texts, every call succeeds, handles 100, 101, ... -/
def calmWorld (glob : Nat) : World where
  parse := parseDecimal
  malloc_ok := fun _ => true
  clock := fun k => ⟨1700000000 + k, 250000000⟩
  create_status := fun _ => 0
  new_handle := fun i => 100 + i
  join_status := fun _ => 0
  glob := glob

/-- The create events of the loop indices `i, i+1, ..., i+n-1`. -/
def createEvents (f : Incrementer) (i n : Nat) : List Event :=
  (List.range' i n).map (fun k => Event.pthread_create k f Ref.numLoops)

/-- The join events of the loop indices `i, ..., i+n-1` on the handles the creates stored. -/
def joinEvents (w : World) (i n : Nat) : List Event :=
  (List.range' i n).map (fun k => Event.pthread_join (some (w.new_handle k)))

/-- A reading is well formed when its nanosecond part lies in `[0, 10^9)`. -/
def Timespec.wellFormed (t : Timespec) : Prop :=
  0 ≤ t.tv_nsec ∧ t.tv_nsec < 1000000000

/-- Order of readings: by `tv_sec`, then by `tv_nsec`. -/
def Timespec.le (a b : Timespec) : Prop :=
  a.tv_sec < b.tv_sec ∨ (a.tv_sec = b.tv_sec ∧ a.tv_nsec ≤ b.tv_nsec)

instance (t : Timespec) : Decidable t.wellFormed := by
  unfold Timespec.wellFormed; infer_instance

instance (a b : Timespec) : Decidable (Timespec.le a b) := by
  unfold Timespec.le; infer_instance

/-- The init hook that belongs to a thread body, by the names of `incrementers/*.c`;
the unsynchronised body has none. -/
def hookOf : Incrementer → Option InitHook
  | .increment_with_no_lock => none
  | .increment_with_mutex => some .init_mutex
  | .increment_with_spinlock => some .init_spinlock
  | .increment_with_readwritelock => some .init_readwritelock
  | .increment_with_signalwait => some .init_signalwait
  | .increment_with_semaphore => some .init_semaphore

/-- The six strategy tokens of the command line. -/
def tokens : List String :=
  ["none", "mutex", "spinlock", "readwritelock", "signalwait", "semaphore"]

/-- An environment whose clock jumps far ahead between the second and third reading. -/
def farFutureWorld : World where
  parse := parseDecimal
  malloc_ok := fun _ => true
  clock := fun k => if k = 0 then ⟨0, 0⟩ else if k = 1 then ⟨1, 0⟩
    else ⟨18446744073709552, 0⟩
  create_status := fun _ => 0
  new_handle := fun i => 100 + i
  join_status := fun _ => 0
  glob := 8000

/-- An environment in which the create of loop index 2 fails with status 11 (`EAGAIN`). -/
def createFailWorld : World where
  parse := parseDecimal
  malloc_ok := fun _ => true
  clock := fun k => ⟨1700000000 + k, 0⟩
  create_status := fun i => if i = 2 then 11 else 0
  new_handle := fun i => 100 + i
  join_status := fun _ => 0
  glob := 0

/-! ## The workers

The thread bodies live in `incrementers/*.c`, which is not among the sources at hand; the
only things `main.c` fixes are the counter (`volatile unsigned int glob`, initially 0), the
number of threads and the loop count they receive.  The bodies are therefore modelled from
section 4.2 of the specification, as an interleaving semantics: a schedule is a list of
worker indices, and each entry lets that worker take one atomic step if it can.
-/

/-- State of the synchronisation primitive the selected thread body works with. -/
inductive Prim
  | unguarded
  | mutex (locked : Bool)
  | spinlock (locked : Bool)
  | rwlock (writer : Bool) (readers : Nat)
  | condvar (locked : Bool) (flag : Bool)
  | semaphore (count : Nat)
  deriving DecidableEq, Repr

/-- Modelled from the spec: the primitive of each variant once its init hook has run
(section 4.2: every hook "must fully construct its primitive (e.g., set initial semaphore
count to 1, initialize the predicate flag)"); `incrementers/*.c` is absent. -/
def initPrim : Incrementer → Prim
  | .increment_with_no_lock => .unguarded
  | .increment_with_mutex => .mutex false
  | .increment_with_spinlock => .spinlock false
  | .increment_with_readwritelock => .rwlock false 0
  | .increment_with_signalwait => .condvar false false
  | .increment_with_semaphore => .semaphore 1

/-- Modelled from the spec: entering the critical section (table of section 4.2), `none`
when the caller has to wait (blocked, or spinning for the spinlock).  The mutex and the
spinlock are taken when free; the read/write lock is taken for writing when nobody holds
it; the semaphore is decremented when positive; the unsynchronised body enters freely.
For the condition variable the lock is taken and the wait ends when the predicate flag is
false; the flag, read as "a turn is in progress", is raised for the turn (section 9 fixes
only that turns are mutually exclusive). -/
def Prim.acquire : Prim → Option Prim
  | .unguarded => some .unguarded
  | .mutex locked => if locked then none else some (.mutex true)
  | .spinlock locked => if locked then none else some (.spinlock true)
  | .rwlock writer readers => if writer ∨ readers ≠ 0 then none else some (.rwlock true 0)
  | .condvar locked flag => if locked ∨ flag then none else some (.condvar true true)
  | .semaphore count => if count = 0 then none else some (.semaphore (count - 1))

/-- Modelled from the spec: leaving the critical section (table of section 4.2): unlock,
or increment the semaphore, or flip the flag back, signal and release the lock. -/
def Prim.release : Prim → Prim
  | .unguarded => .unguarded
  | .mutex _ => .mutex false
  | .spinlock _ => .spinlock false
  | .rwlock _ readers => .rwlock false readers
  | .condvar _ _ => .condvar false false
  | .semaphore count => .semaphore (count + 1)

/-- Where a worker stands inside one iteration of its loop. -/
inductive PC
  | enter
  | load
  | store
  | leave
  deriving DecidableEq, Repr

/-- A worker: its position, the iterations it still has to run, its local copy of `glob`. -/
structure Worker where
  pc : PC
  left : Nat
  loc : Nat
  deriving DecidableEq, Repr

/-- The shared state: the counter, the primitive, the workers in creation order. -/
structure Sys where
  glob : Nat
  prim : Prim
  workers : List Worker
  deriving DecidableEq, Repr

/-- Modelled from the spec: one atomic step of a thread body (section 4.2: "run a loop of
`loop_count` iterations, each iteration performing one serialized (or unsynchronized)
increment"; the increment "is read-modify-write").  An iteration enters the critical
section, reads `glob`, writes back the value plus one as an `unsigned int`, and leaves.
`none` means the worker cannot move: it has returned, or it waits for the primitive. -/
def Worker.step (glob : Nat) (prim : Prim) (w : Worker) : Option (Nat × Prim × Worker) :=
  match w.pc with
  | .enter =>
    if w.left = 0 then none
    else
      match prim.acquire with
      | some p => some (glob, p, { w with pc := .load })
      | none => none
  | .load => some (glob, prim, { w with pc := .store, loc := glob })
  | .store => some ((w.loc + 1) % 2 ^ 32, prim, { w with pc := .leave })
  | .leave => some (glob, prim.release, { w with pc := .enter, left := w.left - 1 })

/-- The scheduler lets worker `i` take a step; nothing happens when it cannot move. -/
def Sys.step (s : Sys) (i : Nat) : Sys :=
  match s.workers[i]? with
  | none => s
  | some w =>
    match w.step s.glob s.prim with
    | none => s
    | some (g, p, w2) => ⟨g, p, s.workers.set i w2⟩

/-- The state reached under a schedule. -/
def Sys.run (s : Sys) (sched : List Nat) : Sys := sched.foldl Sys.step s

/-- The state `main` sets up: `glob` is 0 (line 25), the primitive is initialised, and
each of the `W` threads is about to run body `f` with `*arg = L`. -/
def spawn (f : Incrementer) (L W : Nat) : Sys :=
  ⟨0, initPrim f, List.replicate W ⟨.enter, L, 0⟩⟩

/-- Every worker has returned, so every `pthread_join` can return. -/
def Sys.finished (s : Sys) : Prop := ∀ w ∈ s.workers, w.pc = PC.enter ∧ w.left = 0

instance (s : Sys) : Decidable s.finished := by
  unfold Sys.finished; infer_instance

/-- Increments a worker has written so far, out of `L`. -/
def credit (L : Nat) (w : Worker) : Nat := (L - w.left) + (if w.pc = PC.leave then 1 else 0)

/-- Whether a worker is inside the critical section. -/
def inCS (w : Worker) : Bool := decide (w.pc ≠ PC.enter)

/-- Steps a worker still has to take. -/
def todo (w : Worker) : Nat :=
  4 * w.left - (match w.pc with | .enter => 0 | .load => 1 | .store => 2 | .leave => 3)

/-- Steps all workers still have to take. -/
def work (s : Sys) : Nat := (s.workers.map todo).sum

/-- The invariant of a run under a locking variant: the counter is the number of
increments written so far (modulo 2^32), at most one worker is inside the critical
section, exactly when the primitive is held, and a worker about to write holds the current
value of the counter. -/
structure Inv (f : Incrementer) (L W : Nat) (s : Sys) : Prop where
  len : s.workers.length = W
  bound : ∀ w ∈ s.workers, w.left ≤ L ∧ (w.pc ≠ PC.enter → 0 < w.left)
  total : s.glob = ((s.workers.map (credit L)).sum) % 2 ^ 32
  fresh : ∀ w ∈ s.workers, w.pc = PC.store → w.loc = s.glob
  excl : (s.prim = initPrim f ∧ s.workers.countP inCS = 0)
    ∨ (s.prim.acquire = none ∧ s.prim.release = initPrim f ∧ s.workers.countP inCS = 1)

/-! ## Facts about the two thread loops -/

theorem createLoop_ok_events (w : World) (f : Incrementer) :
    ∀ (n i : Nat) (th : Nat → Option Nat),
      (∀ j, j < n → w.create_status (i + j) = 0) →
      (createLoop w f n i th).events = createEvents f i n
        ∧ (createLoop w f n i th).failed = none
        ∧ ∀ j, (createLoop w f n i th).threads j =
            if i ≤ j ∧ j < i + n then some (w.new_handle j) else th j := by
  intro n
  induction n with
  | zero =>
    intro i th _
    refine ⟨rfl, rfl, ?_⟩
    intro j
    have hno : ¬ (i ≤ j ∧ j < i + 0) := by omega
    rw [if_neg hno]
    rfl
  | succ n ih =>
    intro i th h
    have h0 : w.create_status i = 0 := by simpa using h 0 (Nat.succ_pos n)
    have hrest : ∀ j, j < n → w.create_status (i + 1 + j) = 0 := by
      intro j hj
      have := h (j + 1) (by omega)
      rwa [show i + 1 + j = i + (j + 1) by omega]
    obtain ⟨e1, e2, e3⟩ := ih (i + 1) (Function.update th i (some (w.new_handle i))) hrest
    refine ⟨?_, ?_, ?_⟩
    · simp [createLoop, h0, e1, createEvents, List.range'_succ]
    · simp [createLoop, h0, e2]
    · intro j
      simp only [createLoop, h0, ne_eq, not_true_eq_false, if_false]
      rw [e3 j]
      by_cases hj : j = i
      · subst hj
        have a : ¬ (j + 1 ≤ j ∧ j < j + 1 + n) := by omega
        have b : j ≤ j ∧ j < j + (n + 1) := by omega
        simp [a, b]
      · by_cases hc : i + 1 ≤ j ∧ j < i + 1 + n
        · have b : i ≤ j ∧ j < i + (n + 1) := by omega
          simp [hc, b]
        · have b : ¬ (i ≤ j ∧ j < i + (n + 1)) := by omega
          simp [hc, b, Function.update, hj]

theorem createLoop_fail_events (w : World) (f : Incrementer) :
    ∀ (k i n : Nat) (th : Nat → Option Nat), k < n →
      (∀ j, j < k → w.create_status (i + j) = 0) → w.create_status (i + k) ≠ 0 →
      (createLoop w f n i th).events =
          createEvents f i (k + 1) ++ [Event.errExitEN (w.create_status (i + k)) "pthread_create"]
        ∧ (createLoop w f n i th).failed = some (w.create_status (i + k)) := by
  intro k
  induction k with
  | zero =>
    intro i n th hn _ hbad
    obtain ⟨m, rfl⟩ : ∃ m, n = m + 1 := ⟨n - 1, by omega⟩
    have hbad0 : w.create_status i ≠ 0 := by simpa using hbad
    simp [createLoop, hbad0, createEvents, List.range'_succ]
  | succ k ih =>
    intro i n th hn hok hbad
    obtain ⟨m, rfl⟩ : ∃ m, n = m + 1 := ⟨n - 1, by omega⟩
    have h0 : w.create_status i = 0 := by simpa using hok 0 (Nat.succ_pos k)
    have hok2 : ∀ j, j < k → w.create_status (i + 1 + j) = 0 := by
      intro j hj
      have := hok (j + 1) (by omega)
      rwa [show i + 1 + j = i + (j + 1) by omega]
    have hbad2 : w.create_status (i + 1 + k) ≠ 0 := by
      rwa [show i + 1 + k = i + (k + 1) by omega]
    obtain ⟨e1, e2⟩ := ih (i + 1) m (Function.update th i (some (w.new_handle i)))
      (by omega) hok2 hbad2
    have hidx : i + (k + 1) = i + 1 + k := by omega
    refine ⟨?_, ?_⟩
    · simp only [createLoop, h0, ne_eq, not_true_eq_false, if_false]
      rw [e1, hidx]
      simp [createEvents, List.range'_succ]
    · simp only [createLoop, h0, ne_eq, not_true_eq_false, if_false]
      rw [e2, hidx]

theorem joinLoop_ok_events (w : World) (th : Nat → Option Nat) :
    ∀ (n i : Nat), (∀ j, j < n → w.join_status (i + j) = 0) →
      (∀ j, j < n → th (i + j) = some (w.new_handle (i + j))) →
      joinLoop w th n i = (joinEvents w i n, none) := by
  intro n
  induction n with
  | zero => intro i _ _; rfl
  | succ n ih =>
    intro i h hth
    have h0 : w.join_status i = 0 := by simpa using h 0 (Nat.succ_pos n)
    have t0 : th i = some (w.new_handle i) := by simpa using hth 0 (Nat.succ_pos n)
    have hrest : ∀ j, j < n → w.join_status (i + 1 + j) = 0 := by
      intro j hj
      have := h (j + 1) (by omega)
      rwa [show i + 1 + j = i + (j + 1) by omega]
    have trest : ∀ j, j < n → th (i + 1 + j) = some (w.new_handle (i + 1 + j)) := by
      intro j hj
      have := hth (j + 1) (by omega)
      rwa [show i + 1 + j = i + (j + 1) by omega]
    simp [joinLoop, h0, t0, ih (i + 1) hrest trest, joinEvents, List.range'_succ]

theorem joinLoop_fail_events (w : World) (th : Nat → Option Nat) :
    ∀ (k i n : Nat), k < n →
      (∀ j, j < k → w.join_status (i + j) = 0) → w.join_status (i + k) ≠ 0 →
      (∀ j, j < n → th (i + j) = some (w.new_handle (i + j))) →
      joinLoop w th n i =
        (joinEvents w i (k + 1) ++ [Event.errExitEN (w.join_status (i + k)) "pthread_join"],
          some (w.join_status (i + k))) := by
  intro k
  induction k with
  | zero =>
    intro i n hn _ hbad hth
    obtain ⟨m, rfl⟩ : ∃ m, n = m + 1 := ⟨n - 1, by omega⟩
    have hbad0 : w.join_status i ≠ 0 := by simpa using hbad
    have t0 : th i = some (w.new_handle i) := by simpa using hth 0 (Nat.succ_pos m)
    simp [joinLoop, hbad0, t0, joinEvents, List.range'_succ]
  | succ k ih =>
    intro i n hn hok hbad hth
    obtain ⟨m, rfl⟩ : ∃ m, n = m + 1 := ⟨n - 1, by omega⟩
    have h0 : w.join_status i = 0 := by simpa using hok 0 (Nat.succ_pos k)
    have t0 : th i = some (w.new_handle i) := by simpa using hth 0 (Nat.succ_pos m)
    have hok2 : ∀ j, j < k → w.join_status (i + 1 + j) = 0 := by
      intro j hj
      have := hok (j + 1) (by omega)
      rwa [show i + 1 + j = i + (j + 1) by omega]
    have hbad2 : w.join_status (i + 1 + k) ≠ 0 := by
      rwa [show i + 1 + k = i + (k + 1) by omega]
    have trest : ∀ j, j < m → th (i + 1 + j) = some (w.new_handle (i + 1 + j)) := by
      intro j hj
      have := hth (j + 1) (by omega)
      rwa [show i + 1 + j = i + (j + 1) by omega]
    have e := ih (i + 1) m (by omega) hok2 hbad2 trest
    have hidx : i + (k + 1) = i + 1 + k := by omega
    simp only [joinLoop, h0, ne_eq, not_true_eq_false, if_false]
    rw [e, hidx, t0]
    simp [joinEvents, List.range'_succ]

/-! ## Observations distribute over the pieces of a trace -/

theorem stdoutOf_append (xs ys : List Event) :
    stdoutOf (xs ++ ys) = stdoutOf xs ++ stdoutOf ys := by
  induction xs with
  | nil => rfl
  | cons e es ih => cases e <;> simp [stdoutOf, ih]

theorem initsOf_append (xs ys : List Event) :
    initsOf (xs ++ ys) = initsOf xs ++ initsOf ys := by
  induction xs with
  | nil => rfl
  | cons e es ih => cases e <;> simp [initsOf, ih]

theorem assignsOf_append (xs ys : List Event) :
    assignsOf (xs ++ ys) = assignsOf xs ++ assignsOf ys := by
  induction xs with
  | nil => rfl
  | cons e es ih => cases e <;> simp [assignsOf, ih]

theorem createsOf_append (xs ys : List Event) :
    createsOf (xs ++ ys) = createsOf xs ++ createsOf ys := by
  induction xs with
  | nil => rfl
  | cons e es ih => cases e <;> simp [createsOf, ih]

theorem joinsOf_append (xs ys : List Event) :
    joinsOf (xs ++ ys) = joinsOf xs ++ joinsOf ys := by
  induction xs with
  | nil => rfl
  | cons e es ih => cases e <;> simp [joinsOf, ih]

theorem observe_createEvents (f : Incrementer) :
    ∀ (n i : Nat), stdoutOf (createEvents f i n) = [] ∧ initsOf (createEvents f i n) = []
      ∧ assignsOf (createEvents f i n) = [] ∧ joinsOf (createEvents f i n) = []
      ∧ createsOf (createEvents f i n) = (List.range' i n).map (fun k => (k, f, Ref.numLoops)) := by
  intro n
  induction n with
  | zero => intro i; simp [createEvents, stdoutOf, initsOf, assignsOf, joinsOf, createsOf]
  | succ n ih =>
    intro i
    obtain ⟨a, b, c, d, e⟩ := ih (i + 1)
    simp only [createEvents] at a b c d e
    simp [createEvents, List.range'_succ, stdoutOf, initsOf, assignsOf, joinsOf, createsOf,
      a, b, c, d, e]

theorem observe_joinEvents (w : World) :
    ∀ (n i : Nat), stdoutOf (joinEvents w i n) = [] ∧ initsOf (joinEvents w i n) = []
      ∧ assignsOf (joinEvents w i n) = [] ∧ createsOf (joinEvents w i n) = []
      ∧ joinsOf (joinEvents w i n) = (List.range' i n).map (fun k => some (w.new_handle k)) := by
  intro n
  induction n with
  | zero => intro i; simp [joinEvents, stdoutOf, initsOf, assignsOf, joinsOf, createsOf]
  | succ n ih =>
    intro i
    obtain ⟨a, b, c, d, e⟩ := ih (i + 1)
    simp only [joinEvents] at a b c d e
    simp [joinEvents, List.range'_succ, stdoutOf, initsOf, assignsOf, joinsOf, createsOf,
      a, b, c, d, e]

theorem observe_selectEvents (f : Incrementer) (hook : Option InitHook) :
    stdoutOf (selectEvents f hook) = [] ∧ initsOf (selectEvents f hook) = hook.toList
      ∧ assignsOf (selectEvents f hook) = [f] ∧ createsOf (selectEvents f hook) = []
      ∧ joinsOf (selectEvents f hook) = [] := by
  cases hook <;> simp [selectEvents, stdoutOf, initsOf, assignsOf, createsOf, joinsOf]

/-! ## The three ways through `runThreads` once the array is allocated -/

theorem main_valid (w : World) (prog a1 a2 m : String) (n1 n2 : Int) (f : Incrementer)
    (hook : Option InitHook) (h1 : getInt w a1 = some n1) (h2 : getInt w a2 = some n2)
    (hsel : selectMethod m = some (f, hook)) :
    main w [prog, a1, a2, m] = runThreads w f n2.toNat (selectEvents f hook) := by
  simp [main, mainBody, h1, h2, hsel]

theorem runThreads_ok (w : World) (f : Incrementer) (W : Nat) (pre : List Event)
    (hmalloc : w.malloc_ok W = true)
    (hc : ∀ i, i < W → w.create_status i = 0) (hj : ∀ i, i < W → w.join_status i = 0) :
    runThreads w f W pre =
      ⟨pre ++ [Event.malloc W, Event.clock_gettime] ++ createEvents f 0 W ++ [Event.clock_gettime]
        ++ joinEvents w 0 W ++ [Event.clock_gettime] ++ report w, 0, some f⟩ := by
  obtain ⟨e1, e2, e3⟩ := createLoop_ok_events w f W 0 (fun _ => none)
    (fun j hj0 => by simpa using hc j hj0)
  have ej := joinLoop_ok_events w (createLoop w f W 0 (fun _ => none)).threads W 0
    (fun j hj0 => by simpa using hj j hj0)
    (fun j hj0 => by rw [e3]; simp [hj0])
  simp only [runThreads, hmalloc, e1, e2, ej]
  simp

theorem runThreads_create_fail (w : World) (f : Incrementer) (W k : Nat) (pre : List Event)
    (hmalloc : w.malloc_ok W = true) (hk : k < W)
    (hok : ∀ i, i < k → w.create_status i = 0) (hbad : w.create_status k ≠ 0) :
    runThreads w f W pre =
      ⟨pre ++ [Event.malloc W, Event.clock_gettime] ++ createEvents f 0 (k + 1)
        ++ [Event.errExitEN (w.create_status k) "pthread_create"], 1, some f⟩ := by
  obtain ⟨e1, e2⟩ := createLoop_fail_events w f k 0 W (fun _ => none) hk
    (fun j hj0 => by simpa using hok j hj0) (by simpa using hbad)
  simp only [Nat.zero_add] at e1 e2
  simp only [runThreads, hmalloc, e1, e2]
  simp

theorem runThreads_join_fail (w : World) (f : Incrementer) (W k : Nat) (pre : List Event)
    (hmalloc : w.malloc_ok W = true) (hk : k < W)
    (hc : ∀ i, i < W → w.create_status i = 0)
    (hok : ∀ i, i < k → w.join_status i = 0) (hbad : w.join_status k ≠ 0) :
    runThreads w f W pre =
      ⟨pre ++ [Event.malloc W, Event.clock_gettime] ++ createEvents f 0 W ++ [Event.clock_gettime]
        ++ joinEvents w 0 (k + 1) ++ [Event.errExitEN (w.join_status k) "pthread_join"],
        1, some f⟩ := by
  obtain ⟨e1, e2, e3⟩ := createLoop_ok_events w f W 0 (fun _ => none)
    (fun j hj0 => by simpa using hc j hj0)
  have ej := joinLoop_fail_events w (createLoop w f W 0 (fun _ => none)).threads k 0 W hk
    (fun j hj0 => by simpa using hok j hj0) (by simpa using hbad)
    (fun j hj0 => by rw [e3]; simp [hj0])
  simp only [Nat.zero_add] at ej
  simp only [runThreads, hmalloc, e1, e2, ej]
  simp

theorem observe_createLoop (w : World) (f : Incrementer) :
    ∀ (n i : Nat) (th : Nat → Option Nat),
      initsOf (createLoop w f n i th).events = []
        ∧ assignsOf (createLoop w f n i th).events = [] := by
  intro n
  induction n with
  | zero => intro i th; simp [createLoop, initsOf, assignsOf]
  | succ n ih =>
    intro i th
    by_cases h0 : w.create_status i = 0
    · obtain ⟨a, b⟩ := ih (i + 1) (Function.update th i (some (w.new_handle i)))
      simp [createLoop, h0, initsOf, assignsOf, a, b]
    · simp [createLoop, h0, initsOf, assignsOf]

theorem observe_joinLoop (w : World) (th : Nat → Option Nat) :
    ∀ (n i : Nat), initsOf (joinLoop w th n i).1 = [] ∧ assignsOf (joinLoop w th n i).1 = []
      ∧ createsOf (joinLoop w th n i).1 = [] := by
  intro n
  induction n with
  | zero => intro i; simp [joinLoop, initsOf, assignsOf, createsOf]
  | succ n ih =>
    intro i
    by_cases h0 : w.join_status i = 0
    · obtain ⟨a, b, c⟩ := ih (i + 1)
      simp [joinLoop, h0, initsOf, assignsOf, createsOf, a, b, c]
    · simp [joinLoop, h0, initsOf, assignsOf, createsOf]

/-- Whatever the environment answers, `runThreads` extends the trace it is given by events
among which there is neither an init hook nor an assignment of `incrementer_func`, and it
leaves `incrementer_func` holding `f`. -/
theorem runThreads_trace (w : World) (f : Incrementer) (W : Nat) (pre : List Event) :
    (runThreads w f W pre).incrementer_func = some f
      ∧ ∃ rest, (runThreads w f W pre).trace = pre ++ rest ∧ initsOf rest = []
          ∧ assignsOf rest = [] := by
  obtain ⟨c1, c2⟩ := observe_createLoop w f W 0 (fun _ => none)
  obtain ⟨j1, j2, _⟩ := observe_joinLoop w (createLoop w f W 0 (fun _ => none)).threads W 0
  unfold runThreads
  split
  · exact ⟨rfl, _, rfl, by simp [initsOf], by simp [assignsOf]⟩
  · dsimp only
    split
    · exact ⟨rfl, [Event.malloc W, Event.clock_gettime]
        ++ (createLoop w f W 0 (fun _ => none)).events, by simp,
        by simp [initsOf_append, initsOf, c1], by simp [assignsOf_append, assignsOf, c2]⟩
    · split
      · exact ⟨rfl, [Event.malloc W, Event.clock_gettime]
          ++ (createLoop w f W 0 (fun _ => none)).events ++ [Event.clock_gettime]
          ++ (joinLoop w (createLoop w f W 0 (fun _ => none)).threads W 0).1, by simp,
          by simp [initsOf_append, initsOf, c1, j1],
          by simp [assignsOf_append, assignsOf, c2, j2]⟩
      · exact ⟨rfl, [Event.malloc W, Event.clock_gettime]
          ++ (createLoop w f W 0 (fun _ => none)).events ++ [Event.clock_gettime]
          ++ (joinLoop w (createLoop w f W 0 (fun _ => none)).threads W 0).1
          ++ [Event.clock_gettime] ++ report w, by simp,
          by simp [initsOf_append, initsOf, c1, j1, report],
          by simp [assignsOf_append, assignsOf, c2, j2, report]⟩

theorem selectMethod_of_token (m : String) (hm : m ∈ tokens) :
    ∃ f hook, selectMethod m = some (f, hook) := by
  have hsome : (selectMethod m).isSome = true := by
    simp only [tokens, List.mem_cons, List.mem_singleton, List.mem_nil_iff, or_false] at hm
    rcases hm with rfl | rfl | rfl | rfl | rfl | rfl <;> decide
  obtain ⟨⟨f, hook⟩, h⟩ := Option.isSome_iff_exists.mp hsome
  exact ⟨f, hook, h⟩

theorem selectMethod_none_of_not_token (m : String) (hm : m ∉ tokens) :
    selectMethod m = none := by
  simp only [tokens, List.mem_cons, List.mem_singleton, List.mem_nil_iff, or_false,
    not_or] at hm
  obtain ⟨a, b, c, d, e, g⟩ := hm
  simp [selectMethod, a, b, c, d, e, g]

/-- What the chain of tests selects: the hook is the one of the selected body, and the
unsynchronised body, the only one without a hook, is selected by the token `none` alone. -/
theorem selected_body (m : String) (f : Incrementer) (hook : Option InitHook)
    (hsel : selectMethod m = some (f, hook)) :
    hook = hookOf f ∧ (hookOf f = none ↔ m = "none")
      ∧ (f = Incrementer.increment_with_no_lock ↔ m = "none") := by
  unfold selectMethod at hsel
  split_ifs at hsel with c1 c2 c3 c4 c5 c6 <;>
    simp only [Option.some.injEq, Prod.mk.injEq] at hsel <;>
    obtain ⟨rfl, rfl⟩ := hsel <;> simp [hookOf, c1]

/-! ## The claims about the harness -/

/-- C2: with three positional arguments, two valid positive numbers and a third argument
that is none of the six tokens, `main` returns 1 after writing only the error message to
standard error: no init hook is called, no thread is created, standard output is empty. -/
theorem invalid_token_rejected (w : World) (prog a1 a2 m : String) (n1 n2 : Int)
    (h1 : getInt w a1 = some n1) (h2 : getInt w a2 = some n2) (hm : m ∉ tokens) :
    (main w [prog, a1, a2, m]).exit_code = 1
      ∧ (main w [prog, a1, a2, m]).trace =
          [Event.stderr ("Error: invalid or unknown concurrency mechanism given (" ++ m ++ ")")]
      ∧ initsOf (main w [prog, a1, a2, m]).trace = []
      ∧ createsOf (main w [prog, a1, a2, m]).trace = []
      ∧ stdoutOf (main w [prog, a1, a2, m]).trace = [] := by
  have hs := selectMethod_none_of_not_token m hm
  simp [main, mainBody, h1, h2, hs, initsOf, createsOf, stdoutOf]

/-- C3: when the text of num-loops or of num-threads denotes zero or a negative number,
the run ends inside `getInt` with exit code 1, whatever the strategy token: no init hook
has been called, no thread created, `incrementer_func` is still unset. -/
theorem nonpositive_count_rejected (w : World) (prog a1 a2 m : String) (n : Int)
    (hn : n ≤ 0) (h : w.parse a1 = some n ∨ w.parse a2 = some n) :
    (main w [prog, a1, a2, m]).exit_code = 1
      ∧ ((main w [prog, a1, a2, m]).trace = [Event.getInt_fail "num-loops"]
          ∨ (main w [prog, a1, a2, m]).trace = [Event.getInt_fail "num-threads"])
      ∧ initsOf (main w [prog, a1, a2, m]).trace = []
      ∧ createsOf (main w [prog, a1, a2, m]).trace = []
      ∧ (main w [prog, a1, a2, m]).incrementer_func = none := by
  have hneg : ¬ (0 < n ∧ n ≤ 2147483647) := by omega
  rcases h with h | h
  · have g1 : getInt w a1 = none := by simp [getInt, h, hneg]
    simp [main, mainBody, g1, initsOf, createsOf]
  · have g2 : getInt w a2 = none := by simp [getInt, h, hneg]
    cases g1 : getInt w a1 with
    | none => simp [main, mainBody, g1, initsOf, createsOf]
    | some v => simp [main, mainBody, g1, g2, initsOf, createsOf]

/-- C4: the thread body is a function of the token alone.  The six tokens map to the six
bodies as listed; in a run with valid arguments `incrementer_func` ends up holding the body
`selectMethod` gives for the token, it is assigned exactly once, and a second run with the
same token (any environment, any valid numbers) holds the same body. -/
theorem selection_by_token (w w2 : World) (prog a1 a2 prog2 b1 b2 m : String)
    (n1 n2 k1 k2 : Int)
    (h1 : getInt w a1 = some n1) (h2 : getInt w a2 = some n2)
    (g1 : getInt w2 b1 = some k1) (g2 : getInt w2 b2 = some k2) (hm : m ∈ tokens) :
    ((selectMethod "none").map Prod.fst = some Incrementer.increment_with_no_lock
      ∧ (selectMethod "mutex").map Prod.fst = some Incrementer.increment_with_mutex
      ∧ (selectMethod "spinlock").map Prod.fst = some Incrementer.increment_with_spinlock
      ∧ (selectMethod "readwritelock").map Prod.fst
          = some Incrementer.increment_with_readwritelock
      ∧ (selectMethod "signalwait").map Prod.fst = some Incrementer.increment_with_signalwait
      ∧ (selectMethod "semaphore").map Prod.fst = some Incrementer.increment_with_semaphore)
      ∧ (main w [prog, a1, a2, m]).incrementer_func = (selectMethod m).map Prod.fst
      ∧ (assignsOf (main w [prog, a1, a2, m]).trace).map some = [(selectMethod m).map Prod.fst]
      ∧ (main w [prog, a1, a2, m]).incrementer_func
          = (main w2 [prog2, b1, b2, m]).incrementer_func := by
  obtain ⟨f, hook, hsel⟩ := selectMethod_of_token m hm
  have key : ∀ (v : World) (W : Nat) (pre : List Event),
      (runThreads v f W pre).incrementer_func = some f :=
    fun v W pre => (runThreads_trace v f W pre).1
  have hassign : ∀ (W : Nat), assignsOf (runThreads w f W (selectEvents f hook)).trace = [f] := by
    intro W
    obtain ⟨_, rest, e, _, e2⟩ := runThreads_trace w f W (selectEvents f hook)
    rw [e, assignsOf_append, e2, (observe_selectEvents f hook).2.2.1]
    rfl
  refine ⟨⟨by decide, by decide, by decide, by decide, by decide, by decide⟩, ?_, ?_, ?_⟩
  · rw [main_valid w prog a1 a2 m n1 n2 f hook h1 h2 hsel, key, hsel]; rfl
  · rw [main_valid w prog a1 a2 m n1 n2 f hook h1 h2 hsel, hassign, hsel]; rfl
  · rw [main_valid w prog a1 a2 m n1 n2 f hook h1 h2 hsel,
      main_valid w2 prog2 b1 b2 m k1 k2 f hook g1 g2 hsel, key, key]

/-- Witness of C2: `./hw5 100 4 foobar`. -/
theorem invalid_token_rejected_witness :
    getInt (calmWorld 0) "100" = some 100 ∧ getInt (calmWorld 0) "4" = some 4
      ∧ "foobar" ∉ tokens
      ∧ (main (calmWorld 0) ["./hw5", "100", "4", "foobar"]).exit_code = 1
      ∧ (main (calmWorld 0) ["./hw5", "100", "4", "foobar"]).trace =
          [Event.stderr "Error: invalid or unknown concurrency mechanism given (foobar)"] :=
  have h := invalid_token_rejected (calmWorld 0) "./hw5" "100" "4" "foobar" 100 4
    (by decide) (by decide) (by decide)
  ⟨by decide, by decide, by decide, h.1, h.2.1⟩

/-- Witness of C3: `./hw5 100 -5 semaphore` ends in the second `getInt`. -/
theorem nonpositive_count_rejected_witness :
    (calmWorld 0).parse "-5" = some (-5)
      ∧ (main (calmWorld 0) ["./hw5", "100", "-5", "semaphore"]).exit_code = 1
      ∧ initsOf (main (calmWorld 0) ["./hw5", "100", "-5", "semaphore"]).trace = [] :=
  have h := nonpositive_count_rejected (calmWorld 0) "./hw5" "100" "-5" "semaphore" (-5)
    (by decide) (Or.inr (by decide))
  ⟨by decide, h.1, h.2.2.1⟩

/-- Witness of C4: `./hw5 100 4 spinlock` and `./prog 3 100 spinlock` under another
environment both select `increment_with_spinlock`. -/
theorem selection_by_token_witness :
    "spinlock" ∈ tokens
      ∧ (main (calmWorld 0) ["./hw5", "100", "4", "spinlock"]).incrementer_func
          = some Incrementer.increment_with_spinlock
      ∧ (main (calmWorld 0) ["./hw5", "100", "4", "spinlock"]).incrementer_func
          = (main createFailWorld ["./prog", "3", "100", "spinlock"]).incrementer_func :=
  have h := selection_by_token (calmWorld 0) createFailWorld "./hw5" "100" "4" "./prog" "3"
    "100" "spinlock" 100 4 3 100 (by decide) (by decide) (by decide) (by decide) (by decide)
  ⟨by decide, h.2.1.trans h.1.2.2.1, h.2.2.2⟩

/-- C5, the claim as stated fails: `./hw5 --help` is not the help form; it is treated as a
wrong argument count and exits with code 1. -/
theorem long_help_flag_is_an_error :
    (main (calmWorld 0) ["./hw5", "--help"]).exit_code = 1
      ∧ (main (calmWorld 0) ["./hw5", "--help"]).trace
          = Event.stderr "Error: incorrect # of args" :: printUsage := by
  decide

/-- C5 amended: an argument vector that does not have three positional arguments is the
help form exactly when it is `[prog, "-h"]`; then the usage text is written (to standard
error) and the exit code is 0.  Every other such vector, `[prog, "--help"]` included, gets
the message "Error: incorrect # of args" and the usage text on standard error and exit
code 1.  Nothing is written to standard output either way. -/
theorem usage_paths (w : World) (argv : List String) (hlen : argv.length ≠ 4) :
    (argv.length = 2 ∧ argv[1]? = some "-h" → main w argv = ⟨printUsage, 0, none⟩)
      ∧ (¬ (argv.length = 2 ∧ argv[1]? = some "-h") →
          main w argv = ⟨Event.stderr "Error: incorrect # of args" :: printUsage, 1, none⟩)
      ∧ stdoutOf (main w argv).trace = []
      ∧ stderrOf printUsage =
          ["Usage: ./hw5 <num-loops> <num-threads> <concurrency-method>\n",
           "Valid Concurrency methods are:\n\tnone\n\tmutex\n\tspinlock\n\treadwritelock\n\tsignalwait\n\tsemaphore\n"] := by
  rcases argv with _ | ⟨a, _ | ⟨b, _ | ⟨c, _ | ⟨d, _ | ⟨e, t⟩⟩⟩⟩⟩
  · simp [main, stdoutOf, printUsage, stderrOf]
  · simp [main, stdoutOf, printUsage, stderrOf]
  · by_cases hb : b = "-h" <;> simp [main, stdoutOf, printUsage, stderrOf, hb]
  · simp [main, stdoutOf, printUsage, stderrOf]
  · simp at hlen
  · simp [main, stdoutOf, printUsage, stderrOf]

/-- Witness of C5 amended: `./hw5 -h`. -/
theorem usage_paths_witness :
    ["./hw5", "-h"].length ≠ 4
      ∧ main (calmWorld 0) ["./hw5", "-h"] = ⟨printUsage, 0, none⟩ :=
  ⟨by decide, (usage_paths (calmWorld 0) ["./hw5", "-h"] (by decide)).1 ⟨rfl, rfl⟩⟩

/-- C6: in a run with valid arguments and an allocated handle array, if some
`pthread_create` or `pthread_join` of the run returns a non-zero status, the exit code is
non-zero, nothing is written to standard output, and the trace ends with the first failing
call followed by `errExitEN` with that status: either the creates of indices `0..k` and no
join at all, or all the creates and the joins of indices `0..k`. -/
theorem thread_failure_is_fatal (w : World) (prog a1 a2 m : String) (n1 n2 : Int)
    (f : Incrementer) (hook : Option InitHook)
    (h1 : getInt w a1 = some n1) (h2 : getInt w a2 = some n2)
    (hsel : selectMethod m = some (f, hook)) (hmalloc : w.malloc_ok n2.toNat = true)
    (hfail : ∃ i, i < n2.toNat ∧ (w.create_status i ≠ 0 ∨ w.join_status i ≠ 0)) :
    (main w [prog, a1, a2, m]).exit_code ≠ 0
      ∧ stdoutOf (main w [prog, a1, a2, m]).trace = []
      ∧ ((∃ k, k < n2.toNat ∧ (∀ j, j < k → w.create_status j = 0) ∧ w.create_status k ≠ 0
            ∧ (main w [prog, a1, a2, m]).trace =
                selectEvents f hook ++ [Event.malloc n2.toNat, Event.clock_gettime]
                  ++ createEvents f 0 (k + 1)
                  ++ [Event.errExitEN (w.create_status k) "pthread_create"])
        ∨ (∃ k, k < n2.toNat ∧ (∀ j, j < n2.toNat → w.create_status j = 0)
            ∧ (∀ j, j < k → w.join_status j = 0) ∧ w.join_status k ≠ 0
            ∧ (main w [prog, a1, a2, m]).trace =
                selectEvents f hook ++ [Event.malloc n2.toNat, Event.clock_gettime]
                  ++ createEvents f 0 n2.toNat ++ [Event.clock_gettime]
                  ++ joinEvents w 0 (k + 1)
                  ++ [Event.errExitEN (w.join_status k) "pthread_join"])) := by
  rw [main_valid w prog a1 a2 m n1 n2 f hook h1 h2 hsel]
  have hs := (observe_selectEvents f hook).1
  by_cases hc : ∃ i, i < n2.toNat ∧ w.create_status i ≠ 0
  · have hk := Nat.find_spec hc
    have hmin : ∀ j, j < Nat.find hc → w.create_status j = 0 := by
      intro j hj
      have := Nat.find_min hc hj
      by_contra hne
      exact this ⟨by omega, hne⟩
    have e := runThreads_create_fail w f n2.toNat (Nat.find hc) (selectEvents f hook)
      hmalloc hk.1 hmin hk.2
    have oc := (observe_createEvents f (Nat.find hc + 1) 0).1
    refine ⟨by rw [e]; exact Nat.one_ne_zero, ?_,
      Or.inl ⟨Nat.find hc, hk.1, hmin, hk.2, by rw [e]⟩⟩
    rw [e]
    simp only [stdoutOf_append, hs, oc, List.append_nil, List.nil_append]
    rfl
  · have hall : ∀ j, j < n2.toNat → w.create_status j = 0 := by
      intro j hj
      by_contra hne
      exact hc ⟨j, hj, hne⟩
    have hjn : ∃ i, i < n2.toNat ∧ w.join_status i ≠ 0 := by
      obtain ⟨i, hi, h | h⟩ := hfail
      · exact absurd (hall i hi) h
      · exact ⟨i, hi, h⟩
    have hk := Nat.find_spec hjn
    have hmin : ∀ j, j < Nat.find hjn → w.join_status j = 0 := by
      intro j hj
      have := Nat.find_min hjn hj
      by_contra hne
      exact this ⟨by omega, hne⟩
    have e := runThreads_join_fail w f n2.toNat (Nat.find hjn) (selectEvents f hook)
      hmalloc hk.1 hall hmin hk.2
    have oc := (observe_createEvents f n2.toNat 0).1
    have oj := (observe_joinEvents w (Nat.find hjn + 1) 0).1
    refine ⟨by rw [e]; exact Nat.one_ne_zero, ?_,
      Or.inr ⟨Nat.find hjn, hk.1, hall, hmin, hk.2, by rw [e]⟩⟩
    rw [e]
    simp only [stdoutOf_append, hs, oc, oj, List.append_nil, List.nil_append]
    rfl

/-- Witness of C6: `./hw5 100 4 mutex` when the third create returns 11. -/
theorem thread_failure_is_fatal_witness :
    (∃ i, i < (4 : Int).toNat
        ∧ (createFailWorld.create_status i ≠ 0 ∨ createFailWorld.join_status i ≠ 0))
      ∧ (main createFailWorld ["./hw5", "100", "4", "mutex"]).exit_code ≠ 0
      ∧ stdoutOf (main createFailWorld ["./hw5", "100", "4", "mutex"]).trace = [] :=
  have hf : ∃ i, i < (4 : Int).toNat
      ∧ (createFailWorld.create_status i ≠ 0 ∨ createFailWorld.join_status i ≠ 0) :=
    ⟨2, by decide, Or.inl (by decide)⟩
  have h := thread_failure_is_fatal createFailWorld "./hw5" "100" "4" "mutex" 100 4
    Incrementer.increment_with_mutex (some InitHook.init_mutex)
    (by decide) (by decide) (by decide) (by decide) hf
  ⟨hf, h.1, h.2.1⟩

theorem toULong_natCast (n : Nat) : toULong (n : Int) = n % 2 ^ 64 := by
  unfold toULong
  omega

/-- Within range the machine expression is the exact millisecond count. -/
theorem ms_of_exact (s n : Nat) (hfit : s * 1000 + n / 1000000 < 2 ^ 64)
    (hn : n < 1000000000) : ms_of ⟨(s : Int), (n : Int)⟩ = s * 1000 + n / 1000000 := by
  unfold ms_of
  simp only [toULong_natCast]
  omega

theorem readings_exact (t0 t1 t2 : Timespec)
    (wf0 : t0.wellFormed) (wf1 : t1.wellFormed) (wf2 : t2.wellFormed)
    (h01 : Timespec.le t0 t1) (h12 : Timespec.le t1 t2) (hpos : 0 ≤ t0.tv_sec)
    (hfit : t2.tv_sec * 1000 + t2.tv_nsec / 1000000 < 2 ^ 64) :
    (ms_of t0 : Int) = t0.tv_sec * 1000 + t0.tv_nsec / 1000000
      ∧ (ms_of t1 : Int) = t1.tv_sec * 1000 + t1.tv_nsec / 1000000
      ∧ (ms_of t2 : Int) = t2.tv_sec * 1000 + t2.tv_nsec / 1000000
      ∧ ms_of t0 ≤ ms_of t1 ∧ ms_of t1 ≤ ms_of t2 ∧ ms_of t2 < 2 ^ 64 := by
  obtain ⟨s0, n0⟩ := t0
  obtain ⟨s1, n1⟩ := t1
  obtain ⟨s2, n2⟩ := t2
  simp only [Timespec.wellFormed, Timespec.le] at wf0 wf1 wf2 h01 h12 hpos hfit
  have p1 : 0 ≤ s1 := by omega
  have p2 : 0 ≤ s2 := by omega
  obtain ⟨a0, rfl⟩ := Int.eq_ofNat_of_zero_le hpos
  obtain ⟨a1, rfl⟩ := Int.eq_ofNat_of_zero_le p1
  obtain ⟨a2, rfl⟩ := Int.eq_ofNat_of_zero_le p2
  obtain ⟨b0, rfl⟩ := Int.eq_ofNat_of_zero_le wf0.1
  obtain ⟨b1, rfl⟩ := Int.eq_ofNat_of_zero_le wf1.1
  obtain ⟨b2, rfl⟩ := Int.eq_ofNat_of_zero_le wf2.1
  have e0 := ms_of_exact a0 b0 (by omega) (by omega)
  have e1 := ms_of_exact a1 b1 (by omega) (by omega)
  have e2 := ms_of_exact a2 b2 (by omega) (by omega)
  rw [e0, e1, e2]
  refine ⟨by push_cast; rfl, by push_cast; rfl, by push_cast; rfl, ?_, ?_, ?_⟩ <;> omega

/-- C9, the claim as stated fails for the token `none`: a run of `./hw5 100 4 none` creates
its four threads without any init hook having been called. -/
theorem no_init_hook_for_none :
    initsOf (main (calmWorld 0) ["./hw5", "100", "4", "none"]).trace = []
      ∧ (createsOf (main (calmWorld 0) ["./hw5", "100", "4", "none"]).trace).length = 4 := by
  decide

/-- C9 amended: in every run with valid arguments the init hooks called are exactly the
hook of the selected thread body, once, for the five locking variants, and none at all for
the token `none`; the call sits in the prefix of the trace that precedes every
`pthread_create`, and nothing after that prefix is an init hook. -/
theorem init_once_before_threads (w : World) (prog a1 a2 m : String) (n1 n2 : Int)
    (f : Incrementer) (hook : Option InitHook)
    (h1 : getInt w a1 = some n1) (h2 : getInt w a2 = some n2)
    (hsel : selectMethod m = some (f, hook)) :
    initsOf (main w [prog, a1, a2, m]).trace = (hookOf f).toList
      ∧ hook = hookOf f
      ∧ (hookOf f = none ↔ m = "none")
      ∧ ∃ rest, (main w [prog, a1, a2, m]).trace = selectEvents f (hookOf f) ++ rest
          ∧ initsOf rest = [] ∧ createsOf (selectEvents f (hookOf f)) = [] := by
  obtain ⟨rfl, hnone, _⟩ := selected_body m f hook hsel
  rw [main_valid w prog a1 a2 m n1 n2 f (hookOf f) h1 h2 hsel]
  obtain ⟨_, rest, e, e1, _⟩ := runThreads_trace w f n2.toNat (selectEvents f (hookOf f))
  obtain ⟨_, s2, _, s4, _⟩ := observe_selectEvents f (hookOf f)
  refine ⟨?_, rfl, hnone, rest, e, e1, s4⟩
  rw [e, initsOf_append, e1, s2, List.append_nil]

/-- Witness of C9 amended: `./hw5 100 4 semaphore` calls `init_semaphore` once. -/
theorem init_once_before_threads_witness :
    selectMethod "semaphore"
        = some (Incrementer.increment_with_semaphore, some InitHook.init_semaphore)
      ∧ initsOf (main (calmWorld 0) ["./hw5", "100", "4", "semaphore"]).trace
          = [InitHook.init_semaphore] :=
  have h := init_once_before_threads (calmWorld 0) "./hw5" "100" "4" "semaphore" 100 4
    Incrementer.increment_with_semaphore (some InitHook.init_semaphore)
    (by decide) (by decide) (by decide)
  ⟨by decide, h.1⟩

/-- C10: in a run with valid arguments, an allocated handle array and W = num-threads, when
every create and every join returns 0 the trace is: the selection, the allocation, a clock
reading, the W creates of indices 0..W-1 (each with the selected body and `&numLoops`), a
clock reading, the W joins on the handles stored by the creates 0..W-1 in that order, a
clock reading, then the read of `glob` and the three output lines; the exit code is 0. -/
theorem create_all_then_join_all (w : World) (prog a1 a2 m : String) (n1 n2 : Int)
    (f : Incrementer) (hook : Option InitHook)
    (h1 : getInt w a1 = some n1) (h2 : getInt w a2 = some n2)
    (hsel : selectMethod m = some (f, hook)) (hmalloc : w.malloc_ok n2.toNat = true)
    (hc : ∀ i, i < n2.toNat → w.create_status i = 0)
    (hj : ∀ i, i < n2.toNat → w.join_status i = 0) :
    (main w [prog, a1, a2, m]).trace =
        selectEvents f hook ++ [Event.malloc n2.toNat, Event.clock_gettime]
          ++ createEvents f 0 n2.toNat ++ [Event.clock_gettime]
          ++ joinEvents w 0 n2.toNat ++ [Event.clock_gettime] ++ report w
      ∧ (main w [prog, a1, a2, m]).exit_code = 0
      ∧ 0 < n2.toNat
      ∧ createsOf (main w [prog, a1, a2, m]).trace
          = (List.range n2.toNat).map (fun i => (i, f, Ref.numLoops))
      ∧ joinsOf (main w [prog, a1, a2, m]).trace
          = (List.range n2.toNat).map (fun i => some (w.new_handle i))
      ∧ (report w).head? = some Event.read_glob
      ∧ createsOf (report w) = [] ∧ joinsOf (report w) = [] := by
  rw [main_valid w prog a1 a2 m n1 n2 f hook h1 h2 hsel,
    runThreads_ok w f n2.toNat (selectEvents f hook) hmalloc hc hj]
  obtain ⟨_, _, _, s4, s5⟩ := observe_selectEvents f hook
  obtain ⟨_, _, _, c4, c5⟩ := observe_createEvents f n2.toNat 0
  obtain ⟨_, _, _, j4, j5⟩ := observe_joinEvents w n2.toNat 0
  have hpos : 0 < n2.toNat := by
    unfold getInt at h2
    split at h2
    · split_ifs at h2 with hp
      simp only [Option.some.injEq] at h2
      omega
    · exact absurd h2 (by simp)
  have r1 : createsOf (report w) = [] := rfl
  have r2 : joinsOf (report w) = [] := rfl
  refine ⟨rfl, rfl, hpos, ?_, ?_, rfl, r1, r2⟩
  · have k1 : createsOf [Event.malloc n2.toNat, Event.clock_gettime] = [] := rfl
    have k2 : createsOf [Event.clock_gettime] = [] := rfl
    simp only [createsOf_append, s4, c5, j4, r1, k1, k2, List.nil_append, List.append_nil,
      List.range_eq_range']
  · have k1 : joinsOf [Event.malloc n2.toNat, Event.clock_gettime] = [] := rfl
    have k2 : joinsOf [Event.clock_gettime] = [] := rfl
    simp only [joinsOf_append, s5, c4, j5, r2, k1, k2, List.nil_append, List.append_nil,
      List.range_eq_range']

/-- Witness of C10: `./hw5 100 4 semaphore` in an environment where every call succeeds. -/
theorem create_all_then_join_all_witness :
    getInt (calmWorld 400) "4" = some 4
      ∧ createsOf (main (calmWorld 400) ["./hw5", "100", "4", "semaphore"]).trace
          = [(0, Incrementer.increment_with_semaphore, Ref.numLoops),
             (1, Incrementer.increment_with_semaphore, Ref.numLoops),
             (2, Incrementer.increment_with_semaphore, Ref.numLoops),
             (3, Incrementer.increment_with_semaphore, Ref.numLoops)]
      ∧ joinsOf (main (calmWorld 400) ["./hw5", "100", "4", "semaphore"]).trace
          = [some 100, some 101, some 102, some 103] :=
  have h := create_all_then_join_all (calmWorld 400) "./hw5" "100" "4" "semaphore" 100 4
    Incrementer.increment_with_semaphore (some InitHook.init_semaphore)
    (by decide) (by decide) (by decide) (by decide) (fun _ _ => rfl) (fun _ _ => rfl)
  ⟨by decide, h.2.2.2.1, h.2.2.2.2.1⟩

/-! ## The workers: mutual exclusion, the total, termination -/

theorem guard_cycle (f : Incrementer) (hf : f ≠ Incrementer.increment_with_no_lock) :
    ∃ h, (initPrim f).acquire = some h ∧ h.acquire = none ∧ h.release = initPrim f := by
  cases f
  · exact absurd rfl hf
  · exact ⟨Prim.mutex true, rfl, rfl, rfl⟩
  · exact ⟨Prim.spinlock true, rfl, rfl, rfl⟩
  · exact ⟨Prim.rwlock true 0, rfl, rfl, rfl⟩
  · exact ⟨Prim.condvar true true, rfl, rfl, rfl⟩
  · exact ⟨Prim.semaphore 0, rfl, rfl, rfl⟩

theorem split_at {α : Type} : ∀ (l : List α) (i : Nat) (x : α), l[i]? = some x →
    ∃ a b, l = a ++ x :: b ∧ a.length = i := by
  intro l
  induction l with
  | nil => intro i x h; simp at h
  | cons y ys ih =>
    intro i x h
    cases i with
    | zero =>
      simp at h
      exact ⟨[], ys, by simp [h], rfl⟩
    | succ i =>
      simp at h
      obtain ⟨a, b, e, hl⟩ := ih i x h
      exact ⟨y :: a, b, by simp [e], by simp [hl]⟩

theorem set_mid {α : Type} (a b : List α) (x y : α) :
    (a ++ x :: b).set a.length y = a ++ y :: b := by
  induction a with
  | nil => rfl
  | cons z zs ih => simp [ih]

theorem get_mid {α : Type} (a b : List α) (x : α) : (a ++ x :: b)[a.length]? = some x := by
  induction a with
  | nil => simp
  | cons z zs ih => simpa using ih

theorem spawn_inv (f : Incrementer) (L W : Nat) : Inv f L W (spawn f L W) := by
  refine ⟨by simp [spawn], ?_, ?_, ?_, ?_⟩
  · intro w hw
    simp [spawn, List.mem_replicate] at hw
    obtain ⟨_, rfl⟩ := hw
    simp
  · simp [spawn, credit]
  · intro w hw
    simp [spawn, List.mem_replicate] at hw
    obtain ⟨_, rfl⟩ := hw
    simp
  · left
    refine ⟨rfl, ?_⟩
    simp [spawn, List.countP_eq_zero, inCS]

theorem others_idle (a b : List Worker) (w : Worker) (hw : inCS w = true)
    (h : List.countP inCS (a ++ w :: b) = 1) :
    (∀ x ∈ a, x.pc = PC.enter) ∧ (∀ x ∈ b, x.pc = PC.enter) := by
  rw [List.countP_append, List.countP_cons, if_pos hw] at h
  have ha : List.countP inCS a = 0 := by omega
  have hb : List.countP inCS b = 0 := by omega
  rw [List.countP_eq_zero] at ha hb
  constructor
  · intro x hx
    have := ha x hx
    simpa [inCS] using this
  · intro x hx
    have := hb x hx
    simpa [inCS] using this

theorem inv_step (f : Incrementer) (hf : f ≠ Incrementer.increment_with_no_lock)
    (L W : Nat) (s : Sys) (h : Inv f L W s) (i : Nat) : Inv f L W (s.step i) := by
  unfold Sys.step
  cases hw : s.workers[i]? with
  | none => exact h
  | some w =>
    obtain ⟨a, b, hab, hlen⟩ := split_at s.workers i w hw
    dsimp only
    cases hstep : w.step s.glob s.prim with
    | none => exact h
    | some r =>
      obtain ⟨g, p, w2⟩ := r
      dsimp only
      subst hlen
      rw [hab, set_mid]
      obtain ⟨hl, hb, ht, hfr, hex⟩ := h
      rw [hab] at hl hb ht hfr hex
      have hwb := hb w (by simp)
      obtain ⟨gh, g1, g2, g3⟩ := guard_cycle f hf
      unfold Worker.step at hstep
      have hcnt : List.countP inCS (a ++ w :: b)
          = List.countP inCS a + (if inCS w = true then 1 else 0) + List.countP inCS b := by
        rw [List.countP_append, List.countP_cons]; omega
      have hcnt2 : List.countP inCS (a ++ w2 :: b)
          = List.countP inCS a + (if inCS w2 = true then 1 else 0) + List.countP inCS b := by
        rw [List.countP_append, List.countP_cons]; omega
      have hsum : ((a ++ w :: b).map (credit L)).sum
          = (a.map (credit L)).sum + credit L w + (b.map (credit L)).sum := by
        simp [List.sum_append, List.sum_cons]; omega
      have hsum2 : ((a ++ w2 :: b).map (credit L)).sum
          = (a.map (credit L)).sum + credit L w2 + (b.map (credit L)).sum := by
        simp [List.sum_append, List.sum_cons]; omega
      have hmem : ∀ x, x ∈ a ++ w2 :: b → x = w2 ∨ x ∈ a ++ w :: b := by
        intro x hx
        simp only [List.mem_append, List.mem_cons] at hx ⊢
        tauto
      cases hpc : w.pc with
      | enter =>
        rw [hpc] at hstep
        dsimp only at hstep
        split_ifs at hstep with h0
        cases hacq : s.prim.acquire with
        | none => rw [hacq] at hstep; simp at hstep
        | some q =>
          rw [hacq] at hstep
          simp only [Option.some.injEq, Prod.mk.injEq] at hstep
          obtain ⟨rfl, rfl, rfl⟩ := hstep
          have hidle : s.prim = initPrim f ∧ List.countP inCS (a ++ w :: b) = 0 := by
            rcases hex with hex | hex
            · exact hex
            · rw [hex.1] at hacq; exact absurd hacq (by simp)
          have hq : q = gh := by
            rw [hidle.1, g1] at hacq
            exact (Option.some.inj hacq).symm
          subst hq
          have c1 : (if inCS w = true then 1 else 0) = 0 := by simp [inCS, hpc]
          have c2 : (if inCS { w with pc := PC.load } = true then 1 else 0) = 1 := by
            simp [inCS]
          refine ⟨by simpa using hl, ?_, ?_, ?_, ?_⟩
          · intro x hx
            rcases hmem x hx with rfl | hx
            · exact ⟨hwb.1, fun _ => Nat.pos_of_ne_zero h0⟩
            · exact hb x hx
          · rw [ht, hsum, hsum2]
            simp [credit, hpc]
          · intro x hx
            rcases hmem x hx with rfl | hx
            · intro hc; simp at hc
            · exact hfr x hx
          · right
            refine ⟨g2, g3, ?_⟩
            have hz := hidle.2
            rw [hcnt, c1] at hz
            rw [hcnt2, c2]
            omega
      | load =>
        rw [hpc] at hstep
        simp only [Option.some.injEq, Prod.mk.injEq] at hstep
        obtain ⟨rfl, rfl, rfl⟩ := hstep
        have c1 : (if inCS w = true then 1 else 0) = 1 := by simp [inCS, hpc]
        have c2 : (if inCS { w with pc := PC.store, loc := s.glob } = true then 1 else 0) = 1 := by
          simp [inCS]
        refine ⟨by simpa using hl, ?_, ?_, ?_, ?_⟩
        · intro x hx
          rcases hmem x hx with rfl | hx
          · exact ⟨hwb.1, fun _ => hwb.2 (by simp [hpc])⟩
          · exact hb x hx
        · dsimp only
          rw [hsum2, ht, hsum]
          simp [credit, hpc]
        · intro x hx
          rcases hmem x hx with rfl | hx
          · intro _; rfl
          · exact hfr x hx
        · rw [hcnt2, c2]
          rw [hcnt, c1] at hex
          exact hex
      | store =>
        rw [hpc] at hstep
        simp only [Option.some.injEq, Prod.mk.injEq] at hstep
        obtain ⟨rfl, rfl, rfl⟩ := hstep
        have c1 : (if inCS w = true then 1 else 0) = 1 := by simp [inCS, hpc]
        have c2 : (if inCS { w with pc := PC.leave } = true then 1 else 0) = 1 := by
          simp [inCS]
        have hloc : w.loc = s.glob := hfr w (by simp) hpc
        have hone : List.countP inCS (a ++ w :: b) = 1 := by
          rcases hex with hex | hex
          · have := hex.2
            rw [hcnt, c1] at this
            omega
          · exact hex.2.2
        obtain ⟨ia, ib⟩ := others_idle a b w (by simp [inCS, hpc]) hone
        refine ⟨by simpa using hl, ?_, ?_, ?_, ?_⟩
        · intro x hx
          rcases hmem x hx with rfl | hx
          · exact ⟨hwb.1, fun _ => hwb.2 (by simp [hpc])⟩
          · exact hb x hx
        · dsimp only
          rw [hsum2, hloc, ht, hsum]
          simp only [credit, hpc]
          simp
          omega
        · intro x hx hst
          simp only [List.mem_append, List.mem_cons] at hx
          rcases hx with hx | rfl | hx
          · rw [ia x hx] at hst; exact absurd hst (by decide)
          · simp at hst
          · rw [ib x hx] at hst; exact absurd hst (by decide)
        · rw [hcnt2, c2]
          rw [hcnt, c1] at hex
          exact hex
      | leave =>
        rw [hpc] at hstep
        simp only [Option.some.injEq, Prod.mk.injEq] at hstep
        obtain ⟨rfl, rfl, rfl⟩ := hstep
        have c1 : (if inCS w = true then 1 else 0) = 1 := by simp [inCS, hpc]
        have c2 : (if inCS { w with pc := PC.enter, left := w.left - 1 } = true then 1 else 0)
            = 0 := by
          simp [inCS]
        have hpos : 0 < w.left := hwb.2 (by simp [hpc])
        have hheld : s.prim.release = initPrim f ∧ List.countP inCS (a ++ w :: b) = 1 := by
          rcases hex with hex | hex
          · have := hex.2
            rw [hcnt, c1] at this
            omega
          · exact hex.2
        refine ⟨by simpa using hl, ?_, ?_, ?_, ?_⟩
        · intro x hx
          rcases hmem x hx with rfl | hx
          · exact ⟨by simp; omega, fun hc => absurd rfl hc⟩
          · exact hb x hx
        · dsimp only
          rw [hsum2, ht, hsum]
          simp only [credit, hpc]
          simp
          omega
        · intro x hx
          rcases hmem x hx with rfl | hx
          · intro hc; simp at hc
          · exact hfr x hx
        · left
          refine ⟨hheld.1, ?_⟩
          have hz := hheld.2
          rw [hcnt, c1] at hz
          rw [hcnt2, c2]
          omega

theorem inv_run (f : Incrementer) (hf : f ≠ Incrementer.increment_with_no_lock)
    (L W : Nat) (sched : List Nat) :
    ∀ s : Sys, Inv f L W s → Inv f L W (s.run sched) := by
  induction sched with
  | nil => intro s h; exact h
  | cons i rest ih =>
    intro s h
    exact ih (s.step i) (inv_step f hf L W s h i)

theorem sum_const (L : Nat) : ∀ l : List Worker, (∀ w ∈ l, credit L w = L) →
    (l.map (credit L)).sum = L * l.length := by
  intro l
  induction l with
  | nil => intro _; simp
  | cons x xs ih =>
    intro h
    have hx := h x (by simp)
    have hxs := ih (fun w hw => h w (by simp [hw]))
    simp only [List.map_cons, List.sum_cons, List.length_cons, hx, hxs]
    ring

theorem inv_final (f : Incrementer) (L W : Nat) (s : Sys) (h : Inv f L W s)
    (hfin : s.finished) : s.glob = (L * W) % 2 ^ 32 := by
  have hc : ∀ w ∈ s.workers, credit L w = L := by
    intro w hw
    obtain ⟨p, l⟩ := hfin w hw
    simp [credit, p, l]
  rw [h.total, sum_const L s.workers hc, h.len]

theorem step_at (s : Sys) (a b : List Worker) (w w2 : Worker) (g : Nat) (p : Prim)
    (hab : s.workers = a ++ w :: b) (hstep : w.step s.glob s.prim = some (g, p, w2)) :
    s.step a.length = ⟨g, p, a ++ w2 :: b⟩ := by
  unfold Sys.step
  rw [hab, get_mid]
  dsimp only
  rw [hstep]
  dsimp only
  rw [set_mid]

theorem todo_step (w w2 : Worker) (g g2 : Nat) (p p2 : Prim)
    (hpos : w.pc ≠ PC.enter → 0 < w.left)
    (hstep : w.step g p = some (g2, p2, w2)) : todo w2 + 1 = todo w := by
  unfold Worker.step at hstep
  cases hpc : w.pc with
  | enter =>
    rw [hpc] at hstep
    dsimp only at hstep
    split_ifs at hstep with h0
    cases hacq : p.acquire with
    | none => rw [hacq] at hstep; simp at hstep
    | some q =>
      rw [hacq] at hstep
      simp only [Option.some.injEq, Prod.mk.injEq] at hstep
      obtain ⟨_, _, rfl⟩ := hstep
      simp only [todo, hpc]
      omega
  | load =>
    have := hpos (by simp [hpc])
    rw [hpc] at hstep
    simp only [Option.some.injEq, Prod.mk.injEq] at hstep
    obtain ⟨_, _, rfl⟩ := hstep
    simp only [todo, hpc]
    omega
  | store =>
    have := hpos (by simp [hpc])
    rw [hpc] at hstep
    simp only [Option.some.injEq, Prod.mk.injEq] at hstep
    obtain ⟨_, _, rfl⟩ := hstep
    simp only [todo, hpc]
    omega
  | leave =>
    have := hpos (by simp [hpc])
    rw [hpc] at hstep
    simp only [Option.some.injEq, Prod.mk.injEq] at hstep
    obtain ⟨_, _, rfl⟩ := hstep
    simp only [todo, hpc]
    omega

/-- Under the invariant a state that is not finished has a worker that can move. -/
theorem enabled (f : Incrementer) (hf : f ≠ Incrementer.increment_with_no_lock)
    (L W : Nat) (s : Sys) (h : Inv f L W s) (hnf : ¬ s.finished) :
    ∃ a b w r, s.workers = a ++ w :: b ∧ w.step s.glob s.prim = some r := by
  obtain ⟨gh, g1, _, _⟩ := guard_cycle f hf
  rcases h.excl with ⟨hp, hc⟩ | ⟨_, _, hc⟩
  · rw [List.countP_eq_zero] at hc
    unfold Sys.finished at hnf
    push_neg at hnf
    obtain ⟨w, hw, hne⟩ := hnf
    have hpc : w.pc = PC.enter := by simpa [inCS] using hc w hw
    have hleft : w.left ≠ 0 := hne hpc
    obtain ⟨a, b, hab⟩ := List.append_of_mem hw
    refine ⟨a, b, w, (s.glob, gh, { w with pc := PC.load }), hab, ?_⟩
    simp [Worker.step, hpc, hleft, hp, g1]
  · have hpos : 0 < List.countP inCS s.workers := by omega
    rw [List.countP_pos_iff] at hpos
    obtain ⟨w, hw, hin⟩ := hpos
    obtain ⟨a, b, hab⟩ := List.append_of_mem hw
    have hpc : w.pc ≠ PC.enter := by simpa [inCS] using hin
    cases hq : w.pc with
    | enter => exact absurd hq hpc
    | load => exact ⟨a, b, w, _, hab, by simp [Worker.step, hq]; rfl⟩
    | store => exact ⟨a, b, w, _, hab, by simp [Worker.step, hq]; rfl⟩
    | leave => exact ⟨a, b, w, _, hab, by simp [Worker.step, hq]; rfl⟩

theorem progress (f : Incrementer) (hf : f ≠ Incrementer.increment_with_no_lock)
    (L W : Nat) : ∀ (n : Nat) (s : Sys), Inv f L W s → work s ≤ n →
    ∃ sched, (s.run sched).finished := by
  intro n
  induction n with
  | zero =>
    intro s h hn
    by_cases hfin : s.finished
    · exact ⟨[], hfin⟩
    · obtain ⟨a, b, w, ⟨g, p, w2⟩, hab, hstep⟩ := enabled f hf L W s h hfin
      have hw := h.bound w (by rw [hab]; simp)
      have ht := todo_step w w2 _ g _ p hw.2 hstep
      have : todo w ≤ work s := by
        unfold work
        rw [hab]
        simp [List.sum_append, List.sum_cons]
        omega
      omega
  | succ n ih =>
    intro s h hn
    by_cases hfin : s.finished
    · exact ⟨[], hfin⟩
    · obtain ⟨a, b, w, ⟨g, p, w2⟩, hab, hstep⟩ := enabled f hf L W s h hfin
      have hw := h.bound w (by rw [hab]; simp)
      have ht := todo_step w w2 _ g _ p hw.2 hstep
      have hs := step_at s a b w w2 g p hab hstep
      have hless : work (s.step a.length) ≤ n := by
        rw [hs]
        unfold work at hn ⊢
        rw [hab] at hn
        simp only [List.map_append, List.map_cons, List.sum_append, List.sum_cons] at hn ⊢
        omega
      obtain ⟨sched, hdone⟩ := ih (s.step a.length) (inv_step f hf L W s h a.length) hless
      exact ⟨a.length :: sched, hdone⟩

/-- An interleaving of two unsynchronised workers with two iterations each in which both
read before either writes: they finish with the counter at 2, not 4. -/
theorem unguarded_loses_updates :
    ((spawn Incrementer.increment_with_no_lock 2 2).run
        [0, 1, 0, 1, 0, 1, 0, 1, 0, 1, 0, 1, 0, 1, 0, 1]).finished
      ∧ ((spawn Incrementer.increment_with_no_lock 2 2).run
        [0, 1, 0, 1, 0, 1, 0, 1, 0, 1, 0, 1, 0, 1, 0, 1]).glob = 2 := by
  decide

/-- C7, the code at the failing input `./hw5 1073741824 2 mutex`: the two workers can run
to completion, every complete run leaves 2147483648 in the counter, and with that value in
`glob` the first line `main` writes to standard output shows a negative number. -/
theorem glob_line_wraps_negative :
    (∃ sched, ((spawn Incrementer.increment_with_mutex 1073741824 2).run sched).finished)
      ∧ (∀ sched, ((spawn Incrementer.increment_with_mutex 1073741824 2).run sched).finished →
          ((spawn Incrementer.increment_with_mutex 1073741824 2).run sched).glob = 2147483648)
      ∧ (stdoutOf (main (calmWorld 2147483648)
            ["./hw5", "1073741824", "2", "mutex"]).trace).head?
          = some "glob = -2147483648\n" := by
  have hf : Incrementer.increment_with_mutex ≠ Incrementer.increment_with_no_lock := by decide
  refine ⟨progress _ hf 1073741824 2 _ _ (spawn_inv _ _ _) (le_refl _), ?_, by decide⟩
  intro sched hfin
  have hg := inv_final _ 1073741824 2 _
    (inv_run _ hf 1073741824 2 sched _ (spawn_inv _ _ _)) hfin
  rw [hg]
  norm_num

end Hw5
